import Mathlib

/-!
Verification of the privacy-masking and config-loading module of
`google-calendar-mcp` (`src/config/EmailMasker.ts`, `src/config/PrivacyConfig.ts`).

Strings are modelled as `List Char`. JavaScript `toLowerCase` is modelled
per-character by `Char.toLower` (the ASCII rule, matching the basic-latin
behaviour relevant to email keys). JavaScript plain objects (string-keyed
records in insertion order, unique own keys, prototype `Object.prototype`)
are modelled as association lists of their own properties, together with:
the `in` operator (`jsIn`), which also matches the members inherited from
`Object.prototype`; the property read (`objGet`), which falls back to the
inherited (non-string) member; and the property write (`objAssign`), which
is a silent no-op under the key `__proto__` because the inherited accessor
setter ignores non-object values. Parsed JSON values are modelled by the
`Json` inductive (`JSON.parse` creates own data properties, so an own
`__proto__` entry in parsed output is representable). Filesystem reads and
`JSON.parse` are external effects; a `loadConfig` call's interaction with
them is modelled by the `LoadOutcome` inductive that enumerates their
possible results.
-/

namespace GCalMcp

/-- Model of JavaScript `s.toLowerCase()` on the ASCII range. -/
def jsToLower (s : List Char) : List Char := s.map Char.toLower

/-- Lookup of a key in a JS object modelled as an association list
(`k in obj` followed by `obj[k]`). -/
def objLookup {α : Type} (m : List (List Char × α)) (k : List Char) : Option α :=
  match m with
  | [] => none
  | (k', v) :: rest => if k' = k then some v else objLookup rest k

/-- Own-property write on an association list with unique keys: the first
entry with key `k` is updated in place, otherwise the new entry is
appended (insertion order preserved, as for JS string keys). -/
def objInsert {α : Type} (m : List (List Char × α)) (k : List Char) (v : α) :
    List (List Char × α) :=
  match m with
  | [] => [(k, v)]
  | (k', v') :: rest => if k' = k then (k, v) :: rest else (k', v') :: objInsert rest k v

/-- Property names of `Object.prototype` (Node/V8): inherited by every
plain object, so visible to the JS `in` operator and to property reads on
keys with no own entry. -/
def objectPrototypeKeys : List (List Char) :=
  ["constructor".data, "__defineGetter__".data, "__defineSetter__".data,
   "hasOwnProperty".data, "__lookupGetter__".data, "__lookupSetter__".data,
   "isPrototypeOf".data, "propertyIsEnumerable".data, "toString".data,
   "valueOf".data, "__proto__".data, "toLocaleString".data]

/-- JS `k in obj` on a plain object: true for an own key and for every
member inherited from `Object.prototype`. -/
def jsIn {α : Type} (m : List (List Char × α)) (k : List Char) : Bool :=
  (objLookup m k).isSome || decide (k ∈ objectPrototypeKeys)

/-- Runtime value of a property read `obj[k]` on a string-valued plain
object: the own string property when present, otherwise the member
inherited from `Object.prototype` (a built-in function, or the prototype
object itself for `__proto__`) — never a string. -/
inductive JsPropValue where
  | str : List Char → JsPropValue
  | protoMember : List Char → JsPropValue
deriving DecidableEq, Repr

/-- JS property read `obj[k]` on a string-valued plain object: the own
property shadows the prototype; with no own entry, a key of
`Object.prototype` yields the inherited member; otherwise `undefined`. -/
def objGet (m : List (List Char × List Char)) (k : List Char) : Option JsPropValue :=
  match objLookup m k with
  | some v => some (JsPropValue.str v)
  | none =>
    if k ∈ objectPrototypeKeys then some (JsPropValue.protoMember k) else none

/-- JS property assignment `obj[k] = v` of a string `v` on a plain object
with no own `__proto__` entry: an ordinary own-property write, except
under the key `__proto__`, where the inherited `Object.prototype`
accessor is invoked and its setter silently ignores non-object values, so
no entry is created. -/
def objAssign (m : List (List Char × List Char)) (k : List Char) (v : List Char) :
    List (List Char × List Char) :=
  if k = "__proto__".data then m else objInsert m k v

/-! Source: `src/config/EmailMasker.ts`. -/

/-- Function `maskEmail` from `EmailMasker.ts`:
`if (!email || !email.includes('@')) return email || '';`
then split at the first `@` (`indexOf`/`slice`), returning `***@domain`
for an empty local part and `localPart.charAt(0) + '***@' + domain`
otherwise. -/
def maskEmail (email : List Char) : List Char :=
  if email = [] ∨ ¬ '@' ∈ email then email
  else
    let atIndex := email.findIdx (· = '@')
    let localPart := email.take atIndex
    let domain := email.drop (atIndex + 1)
    match localPart with
    | [] => '*' :: '*' :: '*' :: '@' :: domain
    | c :: _ => c :: '*' :: '*' :: '*' :: '@' :: domain

/-- Structure `MaskedEmailResult` from `EmailMasker.ts`: `email` plus optional
`displayName` (`none` models an absent / `undefined` field). The field is
declared `string` in TypeScript, but the runtime value produced by the
mapping read can also be an inherited `Object.prototype` member, so the
model gives it the runtime type `JsPropValue`. -/
structure MaskedEmailResult where
  email : List Char
  displayName : Option JsPropValue
deriving DecidableEq, Repr

/-- JS `s || undefined` for an optional string `s`: an absent or empty
(falsy) string becomes `undefined`. -/
def jsOrUndefined (s : Option (List Char)) : Option (List Char) :=
  match s with
  | some v => if v = [] then none else some v
  | none => none

/-- Function `applyEmailPrivacy` from `EmailMasker.ts`. The `email` argument is
`string | undefined | null` (`none` models `null`/`undefined`); the config
argument is its `emailMappings` field, itself optional
(`config.emailMappings || {}`). -/
def applyEmailPrivacy (email : Option (List Char))
    (googleDisplayName : Option (List Char))
    (emailMappings : Option (List (List Char × List Char))) : MaskedEmailResult :=
  match email with
  | none =>
    { email := [], displayName := (jsOrUndefined googleDisplayName).map JsPropValue.str }
  | some e =>
    if e = [] then
      { email := [], displayName := (jsOrUndefined googleDisplayName).map JsPropValue.str }
    else
      let emailLower := jsToLower e
      let mappings := emailMappings.getD []
      if jsIn mappings emailLower = true then
        { email := e, displayName := objGet mappings emailLower }
      else
        { email := maskEmail e,
          displayName := (jsOrUndefined googleDisplayName).map JsPropValue.str }

example : maskEmail "john.doe@example.com".data = "j***@example.com".data := by decide
example : maskEmail "a@example.com".data = "a***@example.com".data := by decide
example : maskEmail "".data = "".data := by decide
example : maskEmail "notanemail".data = "notanemail".data := by decide
example : maskEmail "@example.com".data = "***@example.com".data := by decide

example :
    applyEmailPrivacy (some "KNOWN@EXAMPLE.COM".data) none
      (some [("known@example.com".data, "Known Person".data)]) =
    ⟨"KNOWN@EXAMPLE.COM".data, some (JsPropValue.str "Known Person".data)⟩ := by decide

example :
    applyEmailPrivacy (some "unknown@test.com".data) (some "Google Display Name".data)
      (some [("known@example.com".data, "Known Person".data)]) =
    ⟨"u***@test.com".data, some (JsPropValue.str "Google Display Name".data)⟩ := by decide

example :
    applyEmailPrivacy none (some "Name".data) (some []) =
    ⟨[], some (JsPropValue.str "Name".data)⟩ := by decide

example :
    applyEmailPrivacy (some "constructor".data) (some "Bob".data) (some []) =
    ⟨"constructor".data, some (JsPropValue.protoMember "constructor".data)⟩ := by decide

/-! Source: `src/config/PrivacyConfig.ts` (types, defaults, loader). -/

/-- Values produced by `JSON.parse`. -/
inductive Json where
  | null : Json
  | bool : Bool → Json
  | num : Int → Json
  | str : List Char → Json
  | arr : List Json → Json
  | obj : List (List Char × Json) → Json

/-- JS `v === null` on a parsed JSON value. -/
def jsIsNull (j : Json) : Bool :=
  match j with
  | .null => true
  | _ => false

/-- JS `typeof` on a parsed JSON value (`null`, objects and arrays all have
`typeof === 'object'`). -/
def jsTypeof (j : Json) : List Char :=
  match j with
  | .null => "object".data
  | .obj _ => "object".data
  | .arr _ => "object".data
  | .num _ => "number".data
  | .str _ => "string".data
  | .bool _ => "boolean".data

/-- JS truthiness of a parsed JSON value. -/
def jsTruthy (j : Json) : Bool :=
  match j with
  | .null => false
  | .bool b => b
  | .num n => n ≠ 0
  | .str s => s ≠ []
  | .arr _ => true
  | .obj _ => true

/-- JS named-property access `obj.k` on a parsed JSON value: a field of an
object, `undefined` (`none`) on an array (for non-index names such as the
three config field names) and on primitives. -/
def jsGet (j : Json) (k : List Char) : Option Json :=
  match j with
  | .obj fields => objLookup fields k
  | _ => none

/-- JS `Object.entries`: the fields of an object in insertion order, or the
index/element pairs of an array with stringified indices. -/
def jsEntries (j : Json) : List (List Char × Json) :=
  match j with
  | .obj fields => fields
  | .arr xs => xs.enum.map (fun p => ((Nat.repr p.1).data, p.2))
  | _ => []

/-- Interface `PrivacyConfig` from `PrivacyConfig.ts`: all three fields are optional
in the TypeScript interface. -/
structure PrivacyConfig where
  version : Option Int
  emailMappings : Option (List (List Char × List Char))
  defaultCalendarId : Option (List Char)
deriving DecidableEq, Repr

/-- Constant `DEFAULT_PRIVACY_CONFIG`: `version: 1`, empty `emailMappings`, no
`defaultCalendarId`. -/
def DEFAULT_PRIVACY_CONFIG : PrivacyConfig :=
  { version := some 1, emailMappings := some [], defaultCalendarId := none }

/-- Body of the `emailMappings` rebuild loop of `validateConfig`: a string
value is assigned under the lowercased key
(`config.emailMappings[email.toLowerCase()] = name`), anything else is
skipped. The assignment is the JS write `objAssign`, a silent no-op when
the lowercased key is `__proto__`. -/
def buildStep (acc : List (List Char × List Char)) (e : List Char × Json) :
    List (List Char × List Char) :=
  match e.2 with
  | Json.str s => objAssign acc (jsToLower e.1) s
  | _ => acc

/-- The `emailMappings` rebuild loop of `validateConfig`: iterate over
`Object.entries` starting from the empty object. -/
def buildMappings (entries : List (List Char × Json)) : List (List Char × List Char) :=
  entries.foldl buildStep []

/-- Claim-side description of the rebuilt mapping (for the refinement
comparison of the duplicate-key claim): the value under a lowercase key
`k` is the value of the last input entry whose key lowercases to `k` and
whose value is a string, if any. -/
def lastStringValueFor (entries : List (List Char × Json)) (k : List Char) :
    Option (List Char) :=
  match entries with
  | [] => none
  | e :: rest =>
    match lastStringValueFor rest k with
    | some v => some v
    | none =>
      match e.2 with
      | Json.str s => if jsToLower e.1 = k then some s else none
      | _ => none

/-- Method `PrivacyConfigLoader.validateConfig`: reject non-objects and `null`
with the defaults; otherwise start from a copy of the defaults and
override `version` (when a number), `emailMappings` (when a truthy value
of object type, rebuilt key-by-key) and `defaultCalendarId` (when a
truthy string). -/
def validateConfig (parsed : Json) : PrivacyConfig :=
  if jsTypeof parsed ≠ "object".data ∨ jsIsNull parsed = true then DEFAULT_PRIVACY_CONFIG
  else
    let version :=
      match jsGet parsed "version".data with
      | some (Json.num n) => some n
      | _ => DEFAULT_PRIVACY_CONFIG.version
    let emailMappings :=
      match jsGet parsed "emailMappings".data with
      | some m =>
        if jsTruthy m = true ∧ jsTypeof m = "object".data then
          some (buildMappings (jsEntries m))
        else DEFAULT_PRIVACY_CONFIG.emailMappings
      | none => DEFAULT_PRIVACY_CONFIG.emailMappings
    let defaultCalendarId :=
      match jsGet parsed "defaultCalendarId".data with
      | some (Json.str s) =>
        if jsTruthy (Json.str s) = true then some s
        else DEFAULT_PRIVACY_CONFIG.defaultCalendarId
      | _ => DEFAULT_PRIVACY_CONFIG.defaultCalendarId
    { version := version, emailMappings := emailMappings,
      defaultCalendarId := defaultCalendarId }

/-- Outcome of the `fs.readFile` + `JSON.parse` steps of one uncached
`loadConfig` attempt: the file is missing (`ENOENT`), the read fails
otherwise, `JSON.parse` throws, or parsing succeeds with a value. -/
inductive LoadOutcome where
  | readENOENT : LoadOutcome
  | readOtherError : LoadOutcome
  | parseError : LoadOutcome
  | parsed : Json → LoadOutcome

/-- The value computed and cached by one uncached `loadConfig` attempt:
`validateConfig` of the parsed value on success, a copy of the defaults on
`ENOENT` and on every other read or parse failure (the `catch` block). -/
def loadConfigResult (o : LoadOutcome) : PrivacyConfig :=
  match o with
  | .parsed j => validateConfig j
  | _ => DEFAULT_PRIVACY_CONFIG

/-- The mutable state of a `PrivacyConfigLoader`: the cached config (if
any) and `lastLoadTime` in milliseconds. -/
structure PrivacyConfigLoader where
  config : Option PrivacyConfig
  lastLoadTime : Nat
deriving DecidableEq, Repr

/-- Constant `CACHE_TTL = 60 * 1000` (one minute). -/
def CACHE_TTL : Nat := 60 * 1000

/-- One `loadConfig()` call at time `now` with the filesystem/parse
outcome `o`: return the cached config while
`this.config && (Date.now() - this.lastLoadTime) < this.CACHE_TTL`,
otherwise read, cache and return. The `Bool` records whether a file read
was performed. -/
def loadConfig (s : PrivacyConfigLoader) (now : Nat) (o : LoadOutcome) :
    PrivacyConfig × PrivacyConfigLoader × Bool :=
  match s.config with
  | some c =>
    if now - s.lastLoadTime < CACHE_TTL then (c, s, false)
    else
      let cfg := loadConfigResult o
      (cfg, { config := some cfg, lastLoadTime := now }, true)
  | none =>
    let cfg := loadConfigResult o
    (cfg, { config := some cfg, lastLoadTime := now }, true)

/-- Method `invalidateCache()`: clear the cached config and reset the timestamp. -/
def invalidateCache (_s : PrivacyConfigLoader) : PrivacyConfigLoader :=
  { config := none, lastLoadTime := 0 }

/-- Function `getPrivacyConfigPath`, parameterised by the external Node `path`
primitives (`resolve`, two- and three-argument `join`) and the relevant
environment (`PRIVACY_CONFIG_PATH`, `XDG_CONFIG_HOME`, `homedir()`):
`if (process.env.PRIVACY_CONFIG_PATH) return path.resolve(...)`, else
`configDir = process.env.XDG_CONFIG_HOME || path.join(homedir(), '.config')`
joined with the fixed namespace directory and `config.json`. -/
def getPrivacyConfigPath (resolve : List Char → List Char)
    (join2 : List Char → List Char → List Char)
    (join3 : List Char → List Char → List Char → List Char)
    (privacyConfigPathEnv xdgConfigHomeEnv : Option (List Char))
    (homedir : List Char) : List Char :=
  match privacyConfigPathEnv with
  | some p =>
    if p ≠ [] then resolve p
    else
      let configDir :=
        match xdgConfigHomeEnv with
        | some x => if x ≠ [] then x else join2 homedir ".config".data
        | none => join2 homedir ".config".data
      join3 configDir "stella2211-google-calendar-mcp".data "config.json".data
  | none =>
    let configDir :=
      match xdgConfigHomeEnv with
      | some x => if x ≠ [] then x else join2 homedir ".config".data
      | none => join2 homedir ".config".data
    join3 configDir "stella2211-google-calendar-mcp".data "config.json".data

/-- Invariant claimed of every config returned by the loader: all keys of
its `emailMappings` (when present) are lowercase, i.e. fixed by
lowercasing. -/
def emailMappingsKeysLowercase (c : PrivacyConfig) : Prop :=
  ∀ mp, c.emailMappings = some mp → ∀ p ∈ mp, jsToLower p.1 = p.1

example :
    validateConfig (Json.obj [("version".data, Json.num 2),
      ("emailMappings".data, Json.obj [("Known@Example.COM".data, Json.str "Known".data),
        ("bad".data, Json.num 3)]),
      ("defaultCalendarId".data, Json.str "work".data)]) =
    { version := some 2,
      emailMappings := some [("known@example.com".data, "Known".data)],
      defaultCalendarId := some "work".data } := by decide

example : validateConfig (Json.num 5) = DEFAULT_PRIVACY_CONFIG := by decide
example : validateConfig Json.null = DEFAULT_PRIVACY_CONFIG := by decide
example : validateConfig (Json.arr [Json.num 1]) = DEFAULT_PRIVACY_CONFIG := by decide
example :
    validateConfig (Json.obj [("defaultCalendarId".data, Json.str [])]) =
    DEFAULT_PRIVACY_CONFIG := by decide

/-! Helper lemmas. -/

theorem charOfNat_toNat_lower_range :
    ∀ m : Nat, m < 123 → 97 ≤ m → (Char.ofNat m).toNat = m := by decide

theorem charToLower_idem (c : Char) : c.toLower.toLower = c.toLower := by
  have key : ∀ d : Char, ¬ (d.toNat ≥ 65 ∧ d.toNat ≤ 90) → d.toLower = d := by
    intro d hd
    unfold Char.toLower
    exact if_neg hd
  by_cases h : c.toNat ≥ 65 ∧ c.toNat ≤ 90
  · have h1 : c.toLower = Char.ofNat (c.toNat + 32) := by
      unfold Char.toLower
      exact if_pos h
    have hv : (Char.ofNat (c.toNat + 32)).toNat = c.toNat + 32 :=
      charOfNat_toNat_lower_range _ (by omega) (by omega)
    rw [h1]
    exact key _ (by rw [hv]; omega)
  · rw [key c h]
    exact key c h

theorem jsToLower_idem (s : List Char) : jsToLower (jsToLower s) = jsToLower s := by
  unfold jsToLower
  rw [List.map_map]
  exact List.map_congr_left (fun c _ => charToLower_idem c)

theorem objInsert_cons_eq {α : Type} (k₀ : List Char) (v₀ : α) (tl : List (List Char × α))
    (k : List Char) (v : α) (h : k₀ = k) :
    objInsert ((k₀, v₀) :: tl) k v = (k, v) :: tl := by
  simp [objInsert, h]

theorem objInsert_cons_ne {α : Type} (k₀ : List Char) (v₀ : α) (tl : List (List Char × α))
    (k : List Char) (v : α) (h : ¬ k₀ = k) :
    objInsert ((k₀, v₀) :: tl) k v = (k₀, v₀) :: objInsert tl k v := by
  simp [objInsert, h]

theorem objLookup_objInsert {α : Type} (m : List (List Char × α)) (k k' : List Char) (v : α) :
    objLookup (objInsert m k v) k' = if k = k' then some v else objLookup m k' := by
  induction m with
  | nil => simp [objInsert, objLookup]
  | cons hd tl ih =>
    obtain ⟨k₀, v₀⟩ := hd
    by_cases h : k₀ = k
    · subst h
      rw [objInsert_cons_eq k₀ v₀ tl k₀ v rfl]
      by_cases h2 : k₀ = k'
      · subst h2; simp [objLookup]
      · simp [objLookup, h2]
    · rw [objInsert_cons_ne k₀ v₀ tl k v h]
      by_cases h2 : k₀ = k'
      · subst h2
        have hk : ¬ k = k₀ := fun e => h e.symm
        simp [objLookup, hk]
      · simp [objLookup, h2, ih]

theorem mem_objInsert {α : Type} (m : List (List Char × α)) (k : List Char) (v : α)
    (p : List Char × α) (hp : p ∈ objInsert m k v) : p = (k, v) ∨ p ∈ m := by
  induction m with
  | nil => simpa [objInsert] using hp
  | cons hd tl ih =>
    obtain ⟨k₀, v₀⟩ := hd
    by_cases h : k₀ = k
    · rw [objInsert_cons_eq k₀ v₀ tl k v h, List.mem_cons] at hp
      rcases hp with h1 | h1
      · exact Or.inl h1
      · exact Or.inr (List.mem_cons_of_mem _ h1)
    · rw [objInsert_cons_ne k₀ v₀ tl k v h, List.mem_cons] at hp
      rcases hp with h1 | h1
      · exact Or.inr (by simp [h1])
      · rcases ih h1 with h2 | h2
        · exact Or.inl h2
        · exact Or.inr (List.mem_cons_of_mem _ h2)

theorem objInsert_key_mem {α : Type} (m : List (List Char × α)) (k : List Char) (v : α)
    (x : List Char) (hx : x ∈ (objInsert m k v).map Prod.fst) :
    x ∈ m.map Prod.fst ∨ x = k := by
  rcases List.mem_map.1 hx with ⟨p, hp, hpx⟩
  rcases mem_objInsert m k v p hp with h | h
  · exact Or.inr (by rw [← hpx, h])
  · exact Or.inl (List.mem_map.2 ⟨p, h, hpx⟩)

theorem objInsert_keys_nodup {α : Type} (m : List (List Char × α)) (k : List Char) (v : α)
    (hm : (m.map Prod.fst).Nodup) : ((objInsert m k v).map Prod.fst).Nodup := by
  induction m with
  | nil => simp [objInsert]
  | cons hd tl ih =>
    obtain ⟨k₀, v₀⟩ := hd
    simp only [List.map_cons, List.nodup_cons] at hm
    by_cases h : k₀ = k
    · subst h
      rw [objInsert_cons_eq k₀ v₀ tl k₀ v rfl]
      simp only [List.map_cons, List.nodup_cons]
      exact hm
    · rw [objInsert_cons_ne k₀ v₀ tl k v h]
      simp only [List.map_cons, List.nodup_cons]
      refine ⟨fun hmem => ?_, ih hm.2⟩
      rcases objInsert_key_mem tl k v k₀ hmem with h1 | h1
      · exact hm.1 h1
      · exact h h1

theorem foldl_buildStep_lookup (entries : List (List Char × Json)) :
    ∀ (acc : List (List Char × List Char)) (k : List Char), k ≠ "__proto__".data →
      objLookup (List.foldl buildStep acc entries) k =
        match lastStringValueFor entries k with
        | some v => some v
        | none => objLookup acc k := by
  induction entries with
  | nil => intro acc k _; simp [lastStringValueFor]
  | cons e rest ih =>
    intro acc k hk
    rw [List.foldl_cons, ih (buildStep acc e) k hk]
    cases hrest : lastStringValueFor rest k with
    | some v => simp [lastStringValueFor, hrest]
    | none =>
      obtain ⟨k₀, jv⟩ := e
      cases jv with
      | str s =>
        by_cases hpk : jsToLower k₀ = "__proto__".data
        · have hne : ¬ (jsToLower k₀ = k) := by
            rw [hpk]; exact fun h => hk h.symm
          have hne2 : ¬ ("__proto__".data = k) := fun h => hk h.symm
          simp [lastStringValueFor, hrest, buildStep, objAssign, hpk, hne, hne2]
        · simp only [lastStringValueFor, hrest, buildStep, objAssign, if_neg hpk,
            objLookup_objInsert]
          by_cases h : jsToLower k₀ = k
          · simp [h]
          · simp [h]
      | null => simp [lastStringValueFor, hrest, buildStep]
      | bool b => simp [lastStringValueFor, hrest, buildStep]
      | num n => simp [lastStringValueFor, hrest, buildStep]
      | arr xs => simp [lastStringValueFor, hrest, buildStep]
      | obj fields => simp [lastStringValueFor, hrest, buildStep]

theorem foldl_buildStep_lookup_proto (entries : List (List Char × Json)) :
    ∀ (acc : List (List Char × List Char)),
      objLookup (List.foldl buildStep acc entries) "__proto__".data =
        objLookup acc "__proto__".data := by
  induction entries with
  | nil => intro acc; rfl
  | cons e rest ih =>
    intro acc
    rw [List.foldl_cons, ih (buildStep acc e)]
    obtain ⟨k₀, jv⟩ := e
    cases jv with
    | str s =>
      by_cases hpk : jsToLower k₀ = "__proto__".data
      · simp [buildStep, objAssign, hpk]
      · simp [buildStep, objAssign, hpk, objLookup_objInsert]
    | null => rfl
    | bool b => rfl
    | num n => rfl
    | arr xs => rfl
    | obj fields => rfl

theorem buildMappings_lookup (entries : List (List Char × Json)) (k : List Char)
    (hk : k ≠ "__proto__".data) :
    objLookup (buildMappings entries) k = lastStringValueFor entries k := by
  rw [buildMappings, foldl_buildStep_lookup entries [] k hk]
  cases h : lastStringValueFor entries k with
  | some v => rfl
  | none => simp [objLookup]

theorem buildMappings_lookup_proto (entries : List (List Char × Json)) :
    objLookup (buildMappings entries) "__proto__".data = none := by
  rw [buildMappings, foldl_buildStep_lookup_proto entries []]
  rfl

theorem foldl_buildStep_keys_lower (entries : List (List Char × Json)) :
    ∀ acc, (∀ p ∈ acc, jsToLower p.1 = p.1) →
      ∀ p ∈ List.foldl buildStep acc entries, jsToLower p.1 = p.1 := by
  induction entries with
  | nil => intro acc hacc; simpa using hacc
  | cons e rest ih =>
    intro acc hacc
    rw [List.foldl_cons]
    apply ih
    intro p hp
    obtain ⟨k₀, jv⟩ := e
    cases jv with
    | str s =>
      by_cases hpk : jsToLower k₀ = "__proto__".data
      · have hp' : p ∈ acc := by
          simpa [buildStep, objAssign, hpk] using hp
        exact hacc p hp'
      · have hp' : p ∈ objInsert acc (jsToLower k₀) s := by
          simpa [buildStep, objAssign, hpk] using hp
        rcases mem_objInsert acc (jsToLower k₀) s p hp' with h | h
        · rw [h]; exact jsToLower_idem k₀
        · exact hacc p h
    | null => exact hacc p hp
    | bool b => exact hacc p hp
    | num n => exact hacc p hp
    | arr xs => exact hacc p hp
    | obj fields => exact hacc p hp

theorem buildMappings_keys_lower (entries : List (List Char × Json)) :
    ∀ p ∈ buildMappings entries, jsToLower p.1 = p.1 :=
  foldl_buildStep_keys_lower entries [] (by simp)

theorem foldl_buildStep_keys_nodup (entries : List (List Char × Json)) :
    ∀ acc, (acc.map Prod.fst).Nodup →
      ((List.foldl buildStep acc entries).map Prod.fst).Nodup := by
  induction entries with
  | nil => intro acc h; simpa using h
  | cons e rest ih =>
    intro acc h
    rw [List.foldl_cons]
    apply ih
    obtain ⟨k₀, jv⟩ := e
    cases jv with
    | str s =>
      by_cases hpk : jsToLower k₀ = "__proto__".data
      · simpa [buildStep, objAssign, hpk] using h
      · have hgoal : ((objInsert acc (jsToLower k₀) s).map Prod.fst).Nodup :=
          objInsert_keys_nodup acc _ s h
        simpa [buildStep, objAssign, hpk] using hgoal
    | null => exact h
    | bool b => exact h
    | num n => exact h
    | arr xs => exact h
    | obj fields => exact h

theorem buildMappings_keys_nodup (entries : List (List Char × Json)) :
    ((buildMappings entries).map Prod.fst).Nodup :=
  foldl_buildStep_keys_nodup entries [] (by simp)

theorem lastStringValueFor_isSome (entries : List (List Char × Json)) (k₀ v : List Char)
    (hmem : (k₀, Json.str v) ∈ entries) :
    (lastStringValueFor entries (jsToLower k₀)).isSome = true := by
  induction entries with
  | nil => simp at hmem
  | cons e rest ih =>
    cases hrest : lastStringValueFor rest (jsToLower k₀) with
    | some w => simp [lastStringValueFor, hrest]
    | none =>
      rcases List.mem_cons.1 hmem with he | hmemr
      · rw [← he]
        simp [lastStringValueFor, hrest]
      · have hs := ih hmemr
        rw [hrest] at hs
        simp at hs

theorem foldl_buildStep_mem_origin (entries : List (List Char × Json)) :
    ∀ acc (p : List Char × List Char), p ∈ List.foldl buildStep acc entries →
      p ∈ acc ∨ (p.1 ≠ "__proto__".data ∧
        ∃ k₀, jsToLower k₀ = p.1 ∧ (k₀, Json.str p.2) ∈ entries) := by
  induction entries with
  | nil => intro acc p hp; exact Or.inl (by simpa using hp)
  | cons e rest ih =>
    intro acc p hp
    rw [List.foldl_cons] at hp
    rcases ih (buildStep acc e) p hp with h | h
    · obtain ⟨k₀, jv⟩ := e
      cases jv with
      | str s =>
        by_cases hpk : jsToLower k₀ = "__proto__".data
        · have h' : p ∈ acc := by simpa [buildStep, objAssign, hpk] using h
          exact Or.inl h'
        · have h' : p ∈ objInsert acc (jsToLower k₀) s := by
            simpa [buildStep, objAssign, hpk] using h
          rcases mem_objInsert acc (jsToLower k₀) s p h' with h1 | h1
          · refine Or.inr ⟨?_, k₀, ?_, ?_⟩
            · rw [h1]; exact hpk
            · rw [h1]
            · rw [h1]; exact List.mem_cons_self _ _
          · exact Or.inl h1
      | null => exact Or.inl h
      | bool b => exact Or.inl h
      | num n => exact Or.inl h
      | arr xs => exact Or.inl h
      | obj fields => exact Or.inl h
    · rcases h with ⟨hne, k₀, h1, h2⟩
      exact Or.inr ⟨hne, k₀, h1, List.mem_cons_of_mem _ h2⟩

theorem buildMappings_mem_origin (entries : List (List Char × Json))
    (p : List Char × List Char) (hp : p ∈ buildMappings entries) :
    p.1 ≠ "__proto__".data ∧
      ∃ k₀, jsToLower k₀ = p.1 ∧ (k₀, Json.str p.2) ∈ entries := by
  rcases foldl_buildStep_mem_origin entries [] p hp with h | h
  · simp at h
  · exact h

theorem validateConfig_not_obj (parsed : Json)
    (h : jsTypeof parsed ≠ "object".data ∨ jsIsNull parsed = true) :
    validateConfig parsed = DEFAULT_PRIVACY_CONFIG := by
  unfold validateConfig
  rw [if_pos h]

theorem validateConfig_eval (parsed : Json) (h1 : jsTypeof parsed = "object".data)
    (h2 : jsIsNull parsed = false) :
    validateConfig parsed =
      { version :=
          match jsGet parsed "version".data with
          | some (Json.num n) => some n
          | _ => DEFAULT_PRIVACY_CONFIG.version,
        emailMappings :=
          match jsGet parsed "emailMappings".data with
          | some m =>
            if jsTruthy m = true ∧ jsTypeof m = "object".data then
              some (buildMappings (jsEntries m))
            else DEFAULT_PRIVACY_CONFIG.emailMappings
          | none => DEFAULT_PRIVACY_CONFIG.emailMappings,
        defaultCalendarId :=
          match jsGet parsed "defaultCalendarId".data with
          | some (Json.str s) =>
            if jsTruthy (Json.str s) = true then some s
            else DEFAULT_PRIVACY_CONFIG.defaultCalendarId
          | _ => DEFAULT_PRIVACY_CONFIG.defaultCalendarId } := by
  unfold validateConfig
  rw [if_neg (by simp [h1, h2])]

theorem findIdx_append_at (localPart domain : List Char) (h : '@' ∉ localPart) :
    (localPart ++ '@' :: domain).findIdx (· = '@') = localPart.length := by
  induction localPart with
  | nil => simp [List.findIdx_cons]
  | cons c rest ih =>
    have hc : ¬ (c = '@') := fun e => h (by simp [e])
    simp only [List.cons_append, List.findIdx_cons, List.length_cons]
    simp [hc, ih (fun hm => h (List.mem_cons_of_mem _ hm))]

/-! Claim theorems. -/

/-- Claim C1 counterexample: the email `constructor` is not a key of the
(empty) `emailMappings`, yet the JS `in` test at the mapping lookup also
matches members inherited from `Object.prototype`, so the code takes the
known-contact branch and returns the inherited `Object` constructor
function as `displayName` — neither the provided external display name nor
absent. -/
theorem applyEmailPrivacy_prototype_key_counterexample :
    objLookup ([] : List (List Char × List Char)) (jsToLower "constructor".data) = none ∧
    (applyEmailPrivacy (some "constructor".data) (some "Bob".data) (some [])).displayName =
      some (JsPropValue.protoMember "constructor".data) ∧
    (applyEmailPrivacy (some "constructor".data) (some "Bob".data) (some [])).displayName ≠
      some (JsPropValue.str "Bob".data) ∧
    (applyEmailPrivacy (some "constructor".data) (some "Bob".data) (some [])).displayName ≠
      none := by
  decide

/-- Claim C1 (amended): for every email string whose lowercased form is
neither a key of `config.emailMappings` (absent mapping treated as empty)
nor a property name of `Object.prototype`, the result of
`applyEmailPrivacy` has `email` equal to `maskEmail(email)` and
`displayName` equal to the external display name when that was provided
and non-empty, else absent. -/
theorem applyEmailPrivacy_not_in_mappings (e : List Char) (ext : Option (List Char))
    (mappings : Option (List (List Char × List Char)))
    (habs : objLookup (mappings.getD []) (jsToLower e) = none)
    (hproto : jsToLower e ∉ objectPrototypeKeys) :
    (applyEmailPrivacy (some e) ext mappings).email = maskEmail e ∧
    (∀ s, ext = some s → s ≠ [] →
      (applyEmailPrivacy (some e) ext mappings).displayName =
        some (JsPropValue.str s)) ∧
    ((ext = none ∨ ext = some []) →
      (applyEmailPrivacy (some e) ext mappings).displayName = none) := by
  by_cases he : e = []
  · subst he
    refine ⟨rfl, ?_, ?_⟩
    · intro s hs hsne
      subst hs
      simp [applyEmailPrivacy, jsOrUndefined, hsne]
    · intro h
      rcases h with h | h <;> subst h <;> simp [applyEmailPrivacy, jsOrUndefined]
  · have hin : jsIn (mappings.getD []) (jsToLower e) = false := by
      simp [jsIn, habs, hproto]
    refine ⟨?_, ?_, ?_⟩
    · simp [applyEmailPrivacy, he, hin]
    · intro s hs hsne
      subst hs
      simp [applyEmailPrivacy, he, hin, jsOrUndefined, hsne]
    · intro h
      rcases h with h | h <;> subst h <;>
        simp [applyEmailPrivacy, he, hin, jsOrUndefined]

theorem applyEmailPrivacy_not_in_mappings_witness :
    (applyEmailPrivacy (some "unknown@test.com".data) (some "Google".data)
        (some [("known@example.com".data, "Known".data)])).email =
      maskEmail "unknown@test.com".data ∧
    (applyEmailPrivacy (some "unknown@test.com".data) (some "Google".data)
        (some [("known@example.com".data, "Known".data)])).displayName =
      some (JsPropValue.str "Google".data) := by
  have h := applyEmailPrivacy_not_in_mappings "unknown@test.com".data (some "Google".data)
    (some [("known@example.com".data, "Known".data)]) (by decide) (by decide)
  exact ⟨h.1, h.2.1 "Google".data rfl (by decide)⟩

/-- Claim C3 counterexample: the empty string can itself be a key of
`emailMappings`, and it is (trivially) its own lowercasing, but
`applyEmailPrivacy` short-circuits on the falsy empty email before the
mapping lookup, so the mapped display name is not returned. -/
theorem applyEmailPrivacy_empty_key_counterexample :
    objLookup [(([] : List Char), "Hidden".data)] (jsToLower []) = some "Hidden".data ∧
    (applyEmailPrivacy (some []) none (some [([], "Hidden".data)])).displayName ≠
      some (JsPropValue.str "Hidden".data) ∧
    (applyEmailPrivacy (some []) none (some [([], "Hidden".data)])).displayName = none := by
  decide

/-- Claim C3 (amended): for every non-empty email string present (after
lowercasing) as a key of `config.emailMappings`, and for every external
display name, `applyEmailPrivacy` returns the input email with its original
casing and the mapped display name, overriding the external name. -/
theorem applyEmailPrivacy_known_contact (e : List Char) (ext : Option (List Char))
    (mappings : Option (List (List Char × List Char))) (name : List Char)
    (hne : e ≠ []) (hfound : objLookup (mappings.getD []) (jsToLower e) = some name) :
    applyEmailPrivacy (some e) ext mappings = ⟨e, some (JsPropValue.str name)⟩ := by
  have hin : jsIn (mappings.getD []) (jsToLower e) = true := by
    simp [jsIn, hfound]
  simp [applyEmailPrivacy, hne, hin, objGet, hfound]

theorem applyEmailPrivacy_known_contact_witness :
    applyEmailPrivacy (some "KNOWN@EXAMPLE.COM".data) (some "G".data)
      (some [("known@example.com".data, "Known Person".data)]) =
    ⟨"KNOWN@EXAMPLE.COM".data, some (JsPropValue.str "Known Person".data)⟩ :=
  applyEmailPrivacy_known_contact "KNOWN@EXAMPLE.COM".data (some "G".data)
    (some [("known@example.com".data, "Known Person".data)]) "Known Person".data
    (by decide) (by decide)

/-- Claim C4: `maskEmail` is total (it is a Lean function on all of
`List Char`); empty or `@`-free input is returned unchanged, and for input
split at the first `@` into local part and domain it returns
`***@domain` for an empty local part and
`firstChar ++ "***@" ++ domain` otherwise. -/
theorem maskEmail_spec (email : List Char) :
    (email = [] → maskEmail email = []) ∧
    ('@' ∉ email → maskEmail email = email) ∧
    (∀ localPart domain, email = localPart ++ '@' :: domain → '@' ∉ localPart →
      (localPart = [] → maskEmail email = '*' :: '*' :: '*' :: '@' :: domain) ∧
      (∀ c rest, localPart = c :: rest →
        maskEmail email = c :: '*' :: '*' :: '*' :: '@' :: domain)) := by
  refine ⟨?_, ?_, ?_⟩
  · intro h
    subst h
    rfl
  · intro h
    unfold maskEmail
    rw [if_pos (Or.inr h)]
  · intro localPart domain heq hnot
    subst heq
    have hin : '@' ∈ localPart ++ '@' :: domain :=
      List.mem_append_right _ (List.mem_cons_self _ _)
    have hidx : (localPart ++ '@' :: domain).findIdx (· = '@') = localPart.length :=
      findIdx_append_at localPart domain hnot
    constructor
    · intro hl
      subst hl
      rfl
    · intro c rest hl
      subst hl
      unfold maskEmail
      rw [if_neg (by simp [hin])]
      have htake : ((c :: rest) ++ '@' :: domain).take (c :: rest).length = c :: rest :=
        List.take_left _ _
      have hdrop : ((c :: rest) ++ '@' :: domain).drop ((c :: rest).length + 1) = domain := by
        have hsplit : (c :: rest) ++ '@' :: domain = ((c :: rest) ++ ['@']) ++ domain := by
          simp
        rw [hsplit]
        exact List.drop_left' (by simp)
      simp only [hidx, htake, hdrop]

theorem maskEmail_spec_witness :
    maskEmail "john.doe@example.com".data =
      'j' :: '*' :: '*' :: '*' :: '@' :: "example.com".data := by
  have h := (maskEmail_spec "john.doe@example.com".data).2.2 "john.doe".data
    "example.com".data (by decide) (by decide)
  exact h.2 'j' "ohn.doe".data rfl

/-- Claim C2: the uncached load path is a total function of the
read/parse outcome (so callers never receive an error), and it returns the
default config in every failure case: missing file (`ENOENT`), any other
read failure, malformed JSON (`JSON.parse` throws), and parsed JSON that
is not a non-null object. -/
theorem loadConfig_absorbs_failures (o : LoadOutcome) :
    (o = .readENOENT ∨ o = .readOtherError ∨ o = .parseError →
      loadConfigResult o = DEFAULT_PRIVACY_CONFIG) ∧
    (∀ j, o = .parsed j → jsTypeof j ≠ "object".data ∨ jsIsNull j = true →
      loadConfigResult o = DEFAULT_PRIVACY_CONFIG) := by
  constructor
  · intro h
    rcases h with h | h | h <;> subst h <;> rfl
  · intro j hj hbad
    subst hj
    exact validateConfig_not_obj j hbad

theorem loadConfig_absorbs_failures_witness :
    loadConfigResult .readENOENT = DEFAULT_PRIVACY_CONFIG ∧
    loadConfigResult (.parsed (Json.num 42)) = DEFAULT_PRIVACY_CONFIG :=
  ⟨(loadConfig_absorbs_failures .readENOENT).1 (Or.inl rfl),
   (loadConfig_absorbs_failures (.parsed (Json.num 42))).2 (Json.num 42) rfl
     (Or.inl (by decide))⟩

/-- Claim C5 counterexample: `JSON.parse` can produce an `emailMappings`
object with an own `__proto__` data property holding a string, which
`Object.entries` yields; the rebuild assignment under the lowercased key
`__proto__` hits the inherited `Object.prototype` accessor and creates no
entry, so this string-valued entry is silently dropped — the claim says
only entries whose value is not a string are dropped. -/
theorem validateConfig_proto_entry_counterexample :
    jsToLower "__proto__".data = "__proto__".data ∧
    (validateConfig (Json.obj [("emailMappings".data,
        Json.obj [("__proto__".data, Json.str "X".data)])])).emailMappings = some [] := by
  decide

/-- Claim C5 (amended): `validateConfig` returns the default config
unchanged on any value that is not a non-null object; otherwise it starts
from the defaults and overrides `version` only when numeric,
`emailMappings` only when the field is a (truthy) object — rebuilt
key-by-key with lowercased keys, dropping entries whose value is not a
string and also dropping entries whose lowercased key is `__proto__` (the
JS assignment under that key invokes the inherited accessor and creates no
entry) — and `defaultCalendarId` only when a non-empty string; unknown
fields are ignored (the result depends only on the three known fields). -/
theorem validateConfig_spec (parsed : Json) :
    ((jsTypeof parsed ≠ "object".data ∨ jsIsNull parsed = true) →
      validateConfig parsed = DEFAULT_PRIVACY_CONFIG) ∧
    (jsTypeof parsed = "object".data → jsIsNull parsed = false →
      (∀ n, jsGet parsed "version".data = some (Json.num n) →
        (validateConfig parsed).version = some n) ∧
      ((∀ n, jsGet parsed "version".data ≠ some (Json.num n)) →
        (validateConfig parsed).version = DEFAULT_PRIVACY_CONFIG.version) ∧
      (∀ m, jsGet parsed "emailMappings".data = some m → jsTruthy m = true →
        jsTypeof m = "object".data →
        (validateConfig parsed).emailMappings = some (buildMappings (jsEntries m))) ∧
      ((∀ m, jsGet parsed "emailMappings".data = some m →
          ¬ (jsTruthy m = true ∧ jsTypeof m = "object".data)) →
        (validateConfig parsed).emailMappings = DEFAULT_PRIVACY_CONFIG.emailMappings) ∧
      (∀ s, jsGet parsed "defaultCalendarId".data = some (Json.str s) → s ≠ [] →
        (validateConfig parsed).defaultCalendarId = some s) ∧
      ((∀ s, jsGet parsed "defaultCalendarId".data = some (Json.str s) → s = []) →
        (validateConfig parsed).defaultCalendarId = none)) ∧
    (∀ entries (p : List Char × List Char), p ∈ buildMappings entries →
      jsToLower p.1 = p.1 ∧ p.1 ≠ "__proto__".data ∧
        ∃ k₀, jsToLower k₀ = p.1 ∧ (k₀, Json.str p.2) ∈ entries) ∧
    (∀ entries (k₀ v : List Char), (k₀, Json.str v) ∈ entries →
      jsToLower k₀ ≠ "__proto__".data →
      (objLookup (buildMappings entries) (jsToLower k₀)).isSome = true) ∧
    (∀ entries, objLookup (buildMappings entries) "__proto__".data = none) ∧
    (∀ other : Json, jsTypeof other = "object".data → jsIsNull other = false →
      jsTypeof parsed = "object".data → jsIsNull parsed = false →
      jsGet parsed "version".data = jsGet other "version".data →
      jsGet parsed "emailMappings".data = jsGet other "emailMappings".data →
      jsGet parsed "defaultCalendarId".data = jsGet other "defaultCalendarId".data →
      validateConfig parsed = validateConfig other) := by
  refine ⟨validateConfig_not_obj parsed, ?_, ?_, ?_, ?_, ?_⟩
  · intro h1 h2
    rw [validateConfig_eval parsed h1 h2]
    refine ⟨?_, ?_, ?_, ?_, ?_, ?_⟩
    · intro n hv
      simp [hv]
    · intro hno
      cases hv : jsGet parsed "version".data with
      | none => simp [hv]
      | some jv =>
        cases jv with
        | num n => exact absurd hv (hno n)
        | null => simp [hv]
        | bool b => simp [hv]
        | str s => simp [hv]
        | arr xs => simp [hv]
        | obj fields => simp [hv]
    · intro m hm htr hty
      simp [hm, htr, hty]
    · intro hno
      cases hm : jsGet parsed "emailMappings".data with
      | none => simp [hm]
      | some m =>
        have hneg := hno m hm
        simp only [hm]
        rw [if_neg hneg]
    · intro s hs hsne
      simp [hs, jsTruthy, hsne]
    · intro hno
      cases hs : jsGet parsed "defaultCalendarId".data with
      | none => simp [hs, DEFAULT_PRIVACY_CONFIG]
      | some jv =>
        cases jv with
        | str s =>
          have hse := hno s hs
          subst hse
          simp [hs, jsTruthy, DEFAULT_PRIVACY_CONFIG]
        | null => simp [hs, DEFAULT_PRIVACY_CONFIG]
        | bool b => simp [hs, DEFAULT_PRIVACY_CONFIG]
        | num n => simp [hs, DEFAULT_PRIVACY_CONFIG]
        | arr xs => simp [hs, DEFAULT_PRIVACY_CONFIG]
        | obj fields => simp [hs, DEFAULT_PRIVACY_CONFIG]
  · intro entries p hp
    exact ⟨buildMappings_keys_lower entries p hp,
      (buildMappings_mem_origin entries p hp).1,
      (buildMappings_mem_origin entries p hp).2⟩
  · intro entries k₀ v hmem hk
    rw [buildMappings_lookup entries (jsToLower k₀) hk]
    exact lastStringValueFor_isSome entries k₀ v hmem
  · intro entries
    exact buildMappings_lookup_proto entries
  · intro other ho1 ho2 h1 h2 hv hm hc
    rw [validateConfig_eval parsed h1 h2, validateConfig_eval other ho1 ho2, hv, hm, hc]

theorem validateConfig_spec_witness :
    (validateConfig (Json.obj [("version".data, Json.num 7)])).version = some 7 ∧
    validateConfig (Json.num 3) = DEFAULT_PRIVACY_CONFIG :=
  ⟨((validateConfig_spec (Json.obj [("version".data, Json.num 7)])).2.1 rfl rfl).1 7 rfl,
   (validateConfig_spec (Json.num 3)).1 (Or.inl (by decide))⟩

theorem validateConfig_emailMappings_shape (j : Json) (mp : List (List Char × List Char))
    (h : (validateConfig j).emailMappings = some mp) :
    mp = [] ∨ ∃ entries, mp = buildMappings entries := by
  by_cases h1 : jsTypeof j = "object".data
  · by_cases h2 : jsIsNull j = false
    · rw [validateConfig_eval j h1 h2] at h
      cases hm : jsGet j "emailMappings".data with
      | none =>
        rw [hm] at h
        left
        exact (Option.some.inj h).symm
      | some m =>
        rw [hm] at h
        have h' : (if jsTruthy m = true ∧ jsTypeof m = "object".data then
            some (buildMappings (jsEntries m))
            else DEFAULT_PRIVACY_CONFIG.emailMappings) = some mp := h
        by_cases hc : jsTruthy m = true ∧ jsTypeof m = "object".data
        · rw [if_pos hc] at h'
          right
          exact ⟨jsEntries m, (Option.some.inj h').symm⟩
        · rw [if_neg hc] at h'
          left
          exact (Option.some.inj h').symm
    · have h2' : jsIsNull j = true := by simpa using h2
      rw [validateConfig_not_obj j (Or.inr h2')] at h
      left
      exact (Option.some.inj h).symm
  · rw [validateConfig_not_obj j (Or.inl h1)] at h
    left
    exact (Option.some.inj h).symm

theorem loadConfigResult_keys_lowercase (o : LoadOutcome) :
    emailMappingsKeysLowercase (loadConfigResult o) := by
  intro mp hmp p hp
  cases o with
  | parsed j =>
    rcases validateConfig_emailMappings_shape j mp hmp with h | ⟨entries, h⟩
    · subst h
      simp at hp
    · subst h
      exact buildMappings_keys_lower entries p hp
  | readENOENT =>
    have hmp' : ([] : List (List Char × List Char)) = mp :=
      Option.some.inj hmp
    rw [← hmp'] at hp
    simp at hp
  | readOtherError =>
    have hmp' : ([] : List (List Char × List Char)) = mp :=
      Option.some.inj hmp
    rw [← hmp'] at hp
    simp at hp
  | parseError =>
    have hmp' : ([] : List (List Char × List Char)) = mp :=
      Option.some.inj hmp
    rw [← hmp'] at hp
    simp at hp

/-- Claim C6: every config produced by the load path has only lowercase
keys in its `emailMappings`, and a `loadConfig` call preserves this: if
any cached config satisfies the invariant, so does the returned config
(whether served from cache, loaded from file, validated, or defaulted). -/
theorem loadConfig_emailMappings_keys_lowercase :
    (∀ o : LoadOutcome, emailMappingsKeysLowercase (loadConfigResult o)) ∧
    (∀ (s : PrivacyConfigLoader) (now : Nat) (o : LoadOutcome),
      (∀ c, s.config = some c → emailMappingsKeysLowercase c) →
      emailMappingsKeysLowercase (loadConfig s now o).1) := by
  refine ⟨loadConfigResult_keys_lowercase, ?_⟩
  intro s now o hinv
  cases hc : s.config with
  | none =>
    have h : (loadConfig s now o).1 = loadConfigResult o := by
      simp [loadConfig, hc]
    rw [h]
    exact loadConfigResult_keys_lowercase o
  | some c =>
    by_cases ht : now - s.lastLoadTime < CACHE_TTL
    · have h : (loadConfig s now o).1 = c := by
        simp [loadConfig, hc, ht]
      rw [h]
      exact hinv c hc
    · have h : (loadConfig s now o).1 = loadConfigResult o := by
        simp [loadConfig, hc, ht]
      rw [h]
      exact loadConfigResult_keys_lowercase o

theorem loadConfig_emailMappings_keys_lowercase_witness :
    (loadConfig ⟨none, 0⟩ 0 (.parsed (Json.obj [("emailMappings".data,
        Json.obj [("Known@Example.COM".data, Json.str "K".data)])]))).1.emailMappings =
      some [("known@example.com".data, "K".data)] ∧
    jsToLower "known@example.com".data = "known@example.com".data := by
  constructor
  · decide
  · exact loadConfig_emailMappings_keys_lowercase.2 ⟨none, 0⟩ 0
      (.parsed (Json.obj [("emailMappings".data,
        Json.obj [("Known@Example.COM".data, Json.str "K".data)])]))
      (fun _ hc => Option.noConfusion hc)
      [("known@example.com".data, "K".data)] (by decide)
      ("known@example.com".data, "K".data) (by decide)

/-- Claim C7 counterexample: the claim measures the freshness window from
the completion time of any `loadConfig` call, but the code measures it
from `lastLoadTime`, which a cache-hit call does not refresh. Trace: a
load at time 0 caches the defaults; a second call completes (from cache,
no read, state unchanged) at time 59999; a third call at time 60000 —
strictly before 59999 + TTL — nevertheless performs a file read. -/
theorem loadConfig_cache_counterexample :
    (loadConfig ⟨none, 0⟩ 0 .readENOENT).2.1 = ⟨some DEFAULT_PRIVACY_CONFIG, 0⟩ ∧
    (loadConfig ⟨some DEFAULT_PRIVACY_CONFIG, 0⟩ 59999 .readENOENT).2.2 = false ∧
    (loadConfig ⟨some DEFAULT_PRIVACY_CONFIG, 0⟩ 59999 .readENOENT).2.1 =
      ⟨some DEFAULT_PRIVACY_CONFIG, 0⟩ ∧
    60000 < 59999 + CACHE_TTL ∧
    (loadConfig ⟨some DEFAULT_PRIVACY_CONFIG, 0⟩ 60000 .readENOENT).2.2 = true := by
  refine ⟨rfl, ?_, ?_, by decide, ?_⟩ <;> decide

/-- Claim C7 (amended): measured from the recorded load time — if a
`loadConfig` call that performed a file read completed at time `t` (its
post-state is `⟨some cfg, t⟩`), any call at a time strictly before
`t + CACHE_TTL` returns the cached config with no file read and leaves the
state unchanged; a call at or after `t + CACHE_TTL` performs a new read;
after `invalidateCache()` the next call performs a read regardless of
elapsed time. -/
theorem loadConfig_cache_spec (cfg : PrivacyConfig) (t now : Nat) (o : LoadOutcome)
    (s : PrivacyConfigLoader) :
    (now < t + CACHE_TTL →
      loadConfig ⟨some cfg, t⟩ now o = (cfg, ⟨some cfg, t⟩, false)) ∧
    (t + CACHE_TTL ≤ now →
      (loadConfig ⟨some cfg, t⟩ now o).2.2 = true ∧
      (loadConfig ⟨some cfg, t⟩ now o).1 = loadConfigResult o ∧
      (loadConfig ⟨some cfg, t⟩ now o).2.1 = ⟨some (loadConfigResult o), now⟩) ∧
    (loadConfig (invalidateCache s) now o).2.2 = true := by
  refine ⟨?_, ?_, ?_⟩
  · intro h
    have ht : now - t < CACHE_TTL := by
      have : CACHE_TTL = 60 * 1000 := rfl
      omega
    simp [loadConfig, ht]
  · intro h
    have ht : ¬ (now - t < CACHE_TTL) := by
      have : CACHE_TTL = 60 * 1000 := rfl
      omega
    simp [loadConfig, ht]
  · simp [loadConfig, invalidateCache]

theorem loadConfig_cache_spec_witness :
    loadConfig ⟨some DEFAULT_PRIVACY_CONFIG, 100⟩ 101 .readENOENT =
      (DEFAULT_PRIVACY_CONFIG, ⟨some DEFAULT_PRIVACY_CONFIG, 100⟩, false) ∧
    (loadConfig ⟨some DEFAULT_PRIVACY_CONFIG, 100⟩ (100 + CACHE_TTL) .readENOENT).2.2 =
      true :=
  ⟨(loadConfig_cache_spec DEFAULT_PRIVACY_CONFIG 100 101 .readENOENT ⟨none, 0⟩).1
      (by decide),
   ((loadConfig_cache_spec DEFAULT_PRIVACY_CONFIG 100 (100 + CACHE_TTL) .readENOENT
      ⟨none, 0⟩).2.1 (Nat.le_refl _)).1⟩

/-- Claim C8 counterexample: with the override environment variable set to
the empty string — set, but falsy in JS — the code ignores it and falls
through to the home-directory default instead of using the resolved
override value. -/
theorem getPrivacyConfigPath_counterexample :
    getPrivacyConfigPath (fun _ => "RESOLVED".data) (fun a b => a ++ '/' :: b)
        (fun a b c => a ++ '/' :: b ++ '/' :: c) (some []) none "/home/u".data =
      "/home/u/.config/stella2211-google-calendar-mcp/config.json".data ∧
    getPrivacyConfigPath (fun _ => "RESOLVED".data) (fun a b => a ++ '/' :: b)
        (fun a b c => a ++ '/' :: b ++ '/' :: c) (some []) none "/home/u".data ≠
      "RESOLVED".data := by
  decide

/-- Claim C8 (amended): precedence of path resolution, with "set" read as
set to a non-empty value (JS truthiness): a non-empty override-path
variable wins and its resolved value is returned; otherwise a non-empty
base-config-directory variable is joined with the fixed two-segment
subpath (namespace directory + `config.json`); otherwise the home
directory joined with `.config` and the same subpath is used. -/
theorem getPrivacyConfigPath_precedence (resolve : List Char → List Char)
    (join2 : List Char → List Char → List Char)
    (join3 : List Char → List Char → List Char → List Char)
    (ov xdg : Option (List Char)) (home : List Char) :
    (∀ p, ov = some p → p ≠ [] →
      getPrivacyConfigPath resolve join2 join3 ov xdg home = resolve p) ∧
    ((ov = none ∨ ov = some []) → ∀ x, xdg = some x → x ≠ [] →
      getPrivacyConfigPath resolve join2 join3 ov xdg home =
        join3 x "stella2211-google-calendar-mcp".data "config.json".data) ∧
    ((ov = none ∨ ov = some []) → (xdg = none ∨ xdg = some []) →
      getPrivacyConfigPath resolve join2 join3 ov xdg home =
        join3 (join2 home ".config".data) "stella2211-google-calendar-mcp".data
          "config.json".data) := by
  refine ⟨?_, ?_, ?_⟩
  · intro p hp hpne
    subst hp
    simp [getPrivacyConfigPath, hpne]
  · intro hov x hx hxne
    subst hx
    rcases hov with h | h <;> subst h <;> simp [getPrivacyConfigPath, hxne]
  · intro hov hxdg
    rcases hov with h | h <;> rcases hxdg with h2 | h2 <;> subst h <;> subst h2 <;>
      simp [getPrivacyConfigPath]

theorem getPrivacyConfigPath_precedence_witness :
    getPrivacyConfigPath (fun p => p) (fun a b => a ++ '/' :: b)
      (fun a b c => a ++ '/' :: b ++ '/' :: c) (some "/etc/privacy.json".data)
      (some "/xdg".data) "/home/u".data = "/etc/privacy.json".data :=
  (getPrivacyConfigPath_precedence (fun p => p) (fun a b => a ++ '/' :: b)
    (fun a b c => a ++ '/' :: b ++ '/' :: c) (some "/etc/privacy.json".data)
    (some "/xdg".data) "/home/u".data).1 "/etc/privacy.json".data rfl (by decide)

/-- Claim C9 counterexample: for the input keys `__PROTO__` and
`__Proto__`, which both lowercase to `__proto__` and both carry string
values, the claim asserts exactly one kept entry with the last value `b`;
but the JS assignment under `__proto__` is a silent no-op (inherited
accessor), so the program keeps zero entries. -/
theorem validateConfig_proto_duplicate_counterexample :
    jsToLower "__PROTO__".data = "__proto__".data ∧
    jsToLower "__Proto__".data = "__proto__".data ∧
    (validateConfig (Json.obj [("emailMappings".data,
        Json.obj [("__PROTO__".data, Json.str "a".data),
          ("__Proto__".data, Json.str "b".data)])])).emailMappings = some [] ∧
    objLookup ([] : List (List Char × List Char)) "__proto__".data ≠
      some "b".data := by
  decide

/-- Claim C9 (amended): for a config object whose `emailMappings` has keys
that collide after lowercasing to a common key other than `__proto__`,
`validateConfig` keeps at most one entry per key (the rebuilt mapping's
keys are distinct), and the value found under any key other than
`__proto__` is the value of the last input entry (in `Object.entries`
order) whose lowercased key matches and whose value is a string — later
entries overwrite earlier ones, other keys are unaffected, and no error
occurs. (Entries whose keys lowercase to `__proto__` are all dropped by
the inherited-accessor no-op.) -/
theorem validateConfig_duplicate_keys_last_wins (ments : List (List Char × Json))
    (k : List Char) (hk : k ≠ "__proto__".data) :
    ∃ mp, (validateConfig (Json.obj [("emailMappings".data, Json.obj ments)])).emailMappings
        = some mp ∧
      (mp.map Prod.fst).Nodup ∧
      objLookup mp k = lastStringValueFor ments k := by
  refine ⟨buildMappings ments, ?_, buildMappings_keys_nodup ments,
    buildMappings_lookup ments k hk⟩
  rw [validateConfig_eval (Json.obj [("emailMappings".data, Json.obj ments)]) rfl rfl]
  rfl

theorem validateConfig_duplicate_keys_last_wins_witness :
    ∃ mp, (validateConfig (Json.obj [("emailMappings".data,
        Json.obj [("A@x".data, Json.str "a".data),
          ("a@X".data, Json.str "b".data)])])).emailMappings = some mp ∧
      (mp.map Prod.fst).Nodup ∧
      objLookup mp "a@x".data =
        lastStringValueFor [("A@x".data, Json.str "a".data),
          ("a@X".data, Json.str "b".data)] "a@x".data :=
  validateConfig_duplicate_keys_last_wins
    [("A@x".data, Json.str "a".data), ("a@X".data, Json.str "b".data)]
    "a@x".data (by decide)

theorem validateConfig_fields_present (j : Json) :
    (validateConfig j).version.isSome = true ∧
    (validateConfig j).emailMappings.isSome = true := by
  by_cases h1 : jsTypeof j = "object".data
  · by_cases h2 : jsIsNull j = false
    · rw [validateConfig_eval j h1 h2]
      constructor
      · cases hv : jsGet j "version".data with
        | none => simp [DEFAULT_PRIVACY_CONFIG]
        | some jv => cases jv <;> simp [DEFAULT_PRIVACY_CONFIG]
      · cases hm : jsGet j "emailMappings".data with
        | none => simp [DEFAULT_PRIVACY_CONFIG]
        | some m =>
          by_cases hc : jsTruthy m = true ∧ jsTypeof m = "object".data
          · simp only [hm]
            rw [if_pos hc]
            rfl
          · simp only [hm]
            rw [if_neg hc]
            rfl
    · have h2' : jsIsNull j = true := by simpa using h2
      rw [validateConfig_not_obj j (Or.inr h2')]
      exact ⟨rfl, rfl⟩
  · rw [validateConfig_not_obj j (Or.inl h1)]
    exact ⟨rfl, rfl⟩

theorem loadConfigResult_fields_present (o : LoadOutcome) :
    (loadConfigResult o).version.isSome = true ∧
    (loadConfigResult o).emailMappings.isSome = true := by
  cases o with
  | parsed j => exact validateConfig_fields_present j
  | readENOENT => exact ⟨rfl, rfl⟩
  | readOtherError => exact ⟨rfl, rfl⟩
  | parseError => exact ⟨rfl, rfl⟩

/-- Claim C10: every config returned by the load path has `version`
present (`some 1` in the defaults) and `emailMappings` present (`some []`
in the defaults) even though both are optional in the `PrivacyConfig`
type; only `defaultCalendarId` may be absent (it is absent in the
defaults); and a `loadConfig` call preserves this for the cached config. -/
theorem loadConfig_fields_present :
    (∀ o : LoadOutcome, (loadConfigResult o).version.isSome = true ∧
      (loadConfigResult o).emailMappings.isSome = true) ∧
    (∀ (s : PrivacyConfigLoader) (now : Nat) (o : LoadOutcome),
      (∀ c, s.config = some c →
        c.version.isSome = true ∧ c.emailMappings.isSome = true) →
      (loadConfig s now o).1.version.isSome = true ∧
      (loadConfig s now o).1.emailMappings.isSome = true) ∧
    DEFAULT_PRIVACY_CONFIG.version = some 1 ∧
    DEFAULT_PRIVACY_CONFIG.emailMappings = some [] ∧
    DEFAULT_PRIVACY_CONFIG.defaultCalendarId = none := by
  refine ⟨loadConfigResult_fields_present, ?_, rfl, rfl, rfl⟩
  intro s now o hinv
  cases hc : s.config with
  | none =>
    have h : (loadConfig s now o).1 = loadConfigResult o := by
      simp [loadConfig, hc]
    rw [h]
    exact loadConfigResult_fields_present o
  | some c =>
    by_cases ht : now - s.lastLoadTime < CACHE_TTL
    · have h : (loadConfig s now o).1 = c := by
        simp [loadConfig, hc, ht]
      rw [h]
      exact hinv c hc
    · have h : (loadConfig s now o).1 = loadConfigResult o := by
        simp [loadConfig, hc, ht]
      rw [h]
      exact loadConfigResult_fields_present o

theorem loadConfig_fields_present_witness :
    (loadConfig ⟨none, 0⟩ 5 .parseError).1.version.isSome = true :=
  (loadConfig_fields_present.2.1 ⟨none, 0⟩ 5 .parseError
    (fun _ hc => Option.noConfusion hc)).1

end GCalMcp
